import Mathlib

/- Verification of the message-parsing and output-chunking core of
   CodeRunnerBot (src/bot.go, plus the two legacy variants kept in
   src/unnamed/part_000).

   Go strings are modelled as lists of characters (`Str`); every input in
   this development is ASCII, where Go's byte indexing coincides with
   character indexing.  A Go run-time panic (slice bounds out of range,
   index out of range) is modelled by `Option.none`; a function that cannot
   panic on the given input returns `some`. -/

set_option maxRecDepth 100000

abbrev Str := List Char

/-- `strings.ReplaceAll(s, "\r\n", "\n")`: left-to-right, non-overlapping
replacement of CRLF by LF, as used by `isCodeMessage` and
`getLanguageAndCodeFromMessage` (src/bot.go lines 521 and 534). -/
def replaceCRLF : Str → Str
  | '\r' :: '\n' :: rest => '\n' :: replaceCRLF rest
  | c :: rest => c :: replaceCRLF rest
  | [] => []

/-- `strings.Split(s, sep)` for a one-character separator: splits into the
(always non-empty) list of fields between separators. -/
def splitOn (sep : Char) : Str → List Str
  | [] => [[]]
  | c :: rest =>
    if c = sep then [] :: splitOn sep rest
    else
      match splitOn sep rest with
      | [] => [[c]]
      | h :: t => (c :: h) :: t

/-- `strings.Join(xs, "\n")`. -/
def joinNL : List Str → Str
  | [] => []
  | [x] => x
  | x :: rest => x ++ '\n' :: joinNL rest

/-- The fence decoration placed around each payload by `splitOutput`
(src/bot.go line 563): three backticks, newline, payload, newline, three
backticks — 8 characters of decoration. -/
def mkFence (p : Str) : Str := "```\n".data ++ p ++ "\n```".data

/-- The payload portion of a fragment: the text between the fence
decorations (drop the 4 leading and the 4 trailing decoration
characters). -/
def stripFence (f : Str) : Str := (f.drop 4).take (f.length - 8)

/-- Concatenation, in order, of the payload portions of a fragment list. -/
def payloadConcat : List Str → Str
  | [] => []
  | f :: rest => stripFence f ++ payloadConcat rest

/-- The loop of `splitOutput` (src/bot.go lines 562-565), with an explicit
fuel argument so that the definition is structural (the wrapper below
supplies more fuel than the loop can consume).  Faithful to the source:
while `len(output) > limit` it appends a fragment whose payload is
`output[:limit-8]` and then advances `output = output[limit:]`.  Go's
slice expression `output[:limit-8]` panics when `limit - 8 < 0`, which is
modelled by `none`; inside the loop `limit - 8 ≤ limit < len(output)`, so
no other bound can fail. -/
def splitOutputGo : Nat → Str → Int → Option (List Str)
  | 0, _, _ => none
  | fuel + 1, output, limit =>
    if (output.length : Int) > limit then
      if (0 : Int) ≤ limit - 8 then
        match splitOutputGo fuel (output.drop limit.toNat) limit with
        | some rest => some (mkFence (output.take (limit - 8).toNat) :: rest)
        | none => none
      else none
    else some [mkFence output]

/-- `splitOutput(output, limit)` (src/bot.go lines 554-571; identical in
src/unnamed/part_000 lines 556-568).  Each loop iteration removes `limit ≥ 8`
characters, so `output.length + 1` units of fuel always suffice. -/
def splitOutput (output : Str) (limit : Int) : Option (List Str) :=
  splitOutputGo (output.length + 1) output limit

/-- `strings.EqualFold(a, b)` for ASCII strings: case-insensitive equality.
(Go's `EqualFold` performs Unicode simple case folding; on the ASCII
language names and tags used here it agrees with lower-casing both
sides.) -/
def eqFold (a b : Str) : Bool := a.map Char.toLower == b.map Char.toLower

/-- The per-entry resolution loop of `getLanguageAndCodeFromMessage`
(src/bot.go lines 537-549): for each registry entry in order, first compare
the tag to the canonical name with `EqualFold`, then to each of that
entry's aliases; the first hit returns that entry's canonical name. -/
def lookupEntry (test : Str) : List (Str × List Str) → Option Str
  | [] => none
  | (name, aliases) :: rest =>
    if eqFold test name then some name
    else if aliases.any fun k => eqFold k test then some name
    else lookupEntry test rest

/-- One registry entry matches the tag when the tag case-insensitively
equals its canonical name or one of its aliases (the spec's wording of a
single match, used to state what the loop computes). -/
def entryMatches (test : Str) (e : Str × List Str) : Bool :=
  eqFold test e.1 || e.2.any fun k => eqFold k test

/-- The spec-worded resolver: the first entry in registry order that
matches the tag (canonical name or alias) yields its canonical name. -/
def specResolve (test : Str) (registry : List (Str × List Str)) : Option Str :=
  (registry.find? (entryMatches test)).map fun e => e.1

/-- `stringInSlice(s, a)` (src/bot.go lines 573-580): a linear scan with
case-SENSITIVE `==` comparison. -/
def stringInSlice (s : Str) (a : List Str) : Bool := a.any fun i => i == s

/-- `isCodeMessage(m)` (src/bot.go lines 519-530; identical in
src/unnamed/part_000 lines 534-540): normalize CRLF, split on newlines;
fewer than two lines is `false`; otherwise compare `c[0][:3]` to the fence
and the last line to the fence.  The slice expression `c[0][:3]` panics
(`none`) when the first line has fewer than 3 characters. -/
def isCodeMessage (content : Str) : Option Bool :=
  let c := splitOn '\n' (replaceCRLF content)
  if c.length < 2 then some false
  else if (c.headD []).length < 3 then none
  else some (((c.headD []).take 3 == "```".data) && (c.getLastD [] == "```".data))

/-- `c[0][3:]` of the split message (src/bot.go line 538): the raw tag.
Panics (`none`) when the first line has fewer than 3 characters. -/
def firstTag (c : List Str) : Option Str :=
  match c with
  | [] => none
  | c0 :: _ => if 3 ≤ c0.length then some (c0.drop 3) else none

/-- `c[1:len(c)-1]` (src/bot.go lines 539 and 551): the middle lines.
Go panics on this slice when `len(c) < 2` (the high bound `len(c)-1`
falls below the low bound 1). -/
def sliceMid (c : List Str) : Option (List Str) :=
  if 2 ≤ c.length then some ((c.drop 1).take (c.length - 2)) else none

/-- `getLanguageAndCodeFromMessage(m)` (src/bot.go lines 532-552) with the
process-global `languageMappings` made an explicit `registry` parameter.
The Go loop recomputes `test := c[0][3:]` and
`code := strings.Join(c[1:len(c)-1], "\n")` in every iteration (both are
loop-invariant); when the registry is empty neither is evaluated in the
loop, but the final `return "", strings.Join(c[1:len(c)-1], "\n")` still
slices the middle lines.  Either slice panics as in `firstTag` /
`sliceMid`. -/
def getLanguageAndCodeFromMessage (registry : List (Str × List Str))
    (content : Str) : Option (Str × Str) :=
  let c := splitOn '\n' (replaceCRLF content)
  match registry with
  | [] => (sliceMid c).map fun mid => (([] : Str), joinNL mid)
  | _ :: _ =>
    (firstTag c).bind fun test =>
      (sliceMid c).bind fun mid =>
        match lookupEntry test registry with
        | some name => some (name, joinNL mid)
        | none => some (([] : Str), joinNL mid)

/-- The static language list of the first legacy variant
(src/unnamed/part_000 lines 80-158), used by the `/run` option check. -/
def allowedLanguages : List Str :=
  ["awk".data, "bash".data, "befunge93".data, "brainfuck".data, "c".data,
   "c++".data, "cjam".data, "clojure".data, "cobol".data, "coffeescript".data,
   "cow".data, "crystal".data, "csharp".data, "csharp.net".data, "d".data,
   "dart".data, "dash".data, "dragon".data, "elixir".data, "emacs".data,
   "erlang".data, "file".data, "forte".data, "fortran".data, "freebasic".data,
   "fsharp.net".data, "fsi".data, "go".data, "golfscript".data, "groovy".data,
   "haskell".data, "husk".data, "iverilog".data, "japt".data, "java".data,
   "javascript".data, "jelly".data, "julia".data, "kotlin".data, "lisp".data,
   "llvm_ir".data, "lolcode".data, "lua".data, "nasm".data, "nasm64".data,
   "nim".data, "ocaml".data, "octave".data, "osabie".data, "paradoc".data,
   "pascal".data, "perl".data, "php".data, "ponylang".data, "powershell".data,
   "prolog".data, "pure".data, "pyth".data, "python".data, "python2".data,
   "racket".data, "raku".data, "retina".data, "rockstar".data, "rscript".data,
   "ruby".data, "rust".data, "scala".data, "sqlite3".data, "swift".data,
   "typescript".data, "basic".data, "basic.net".data, "vlang".data,
   "vyxal".data, "yeethon".data, "zig".data]

/-- The `languages` registry of the second legacy variant
(src/unnamed/part_000 lines 351-429), listed in source order.  It is a Go
map in the source, so its iteration order is unspecified; no theorem below
depends on the order of this concrete list. -/
def languages : List (Str × List Str) :=
  [("awk".data, ["awk".data]),
   ("bash".data, ["bash".data, "sh".data, "zsh".data, "ksh".data, "shell".data]),
   ("befunge93".data, ["befunge".data]),
   ("brainfuck".data, ["brainfuck".data, "bf".data]),
   ("c".data, ["c".data]),
   ("c++".data, ["cpp".data, "c++".data, "h".data]),
   ("cjam".data, []),
   ("clojure".data, ["clojure".data, "clj".data, "clojurescript".data, "cljs".data]),
   ("cobol".data, ["cobol".data]),
   ("coffeescript".data, ["coffeescript".data, "coffee-script".data, "coffee".data]),
   ("cow".data, []),
   ("crystal".data, ["cr".data, "crystal".data]),
   ("csharp".data, ["csharp".data, "c#".data, "cs".data, "aspx-cs".data]),
   ("csharp.net".data, []),
   ("d".data, ["d".data]),
   ("dart".data, ["dart".data]),
   ("dash".data, []),
   ("dragon".data, []),
   ("elixir".data, ["elixir".data, "ex".data, "exs".data]),
   ("emacs".data, ["emacs-lisp".data, "elisp".data, "emacs".data]),
   ("erlang".data, ["erlang".data]),
   ("file".data, []),
   ("forte".data, []),
   ("fortran".data, ["fortran".data]),
   ("freebasic".data, ["basic".data]),
   ("fsharp.net".data, []),
   ("fsi".data, ["fsharp".data, "f#".data]),
   ("go".data, ["go".data, "golang".data]),
   ("golfscript".data, []),
   ("groovy".data, ["groovy".data]),
   ("haskell".data, ["haskell".data, "hs".data]),
   ("husk".data, []),
   ("iverilog".data, ["verilog".data, "v".data]),
   ("japt".data, []),
   ("java".data, ["java".data]),
   ("javascript".data, ["javascript".data, "js".data]),
   ("jelly".data, []),
   ("julia".data, ["julia".data, "jl".data]),
   ("kotlin".data, ["kotlin".data]),
   ("lisp".data, ["common-lisp".data, "cl".data, "lisp".data]),
   ("llvm_ir".data, ["llvm".data]),
   ("lolcode".data, []),
   ("lua".data, ["lua".data]),
   ("nasm".data, ["nasm".data]),
   ("nasm64".data, []),
   ("nim".data, ["nimrod".data, "nim".data]),
   ("ocaml".data, ["ocaml".data]),
   ("octave".data, ["octave".data]),
   ("osabie".data, []),
   ("paradoc".data, []),
   ("pascal".data, ["delphi".data, "pas".data, "pascal".data, "objectpascal".data]),
   ("perl".data, ["perl".data, "pl".data]),
   ("php".data, ["php".data, "php3".data, "php4".data, "php5".data]),
   ("ponylang".data, ["pony".data]),
   ("powershell".data, ["powershell".data, "pwsh".data, "posh".data, "ps1".data, "psm1".data]),
   ("prolog".data, ["prolog".data]),
   ("pure".data, []),
   ("pyth".data, []),
   ("python".data, ["python".data, "py".data, "sage".data, "python3".data, "py3".data]),
   ("python2".data, ["python2".data, "py2".data]),
   ("racket".data, ["racket".data, "rkt".data]),
   ("raku".data, ["perl6".data, "pl6".data, "raku".data]),
   ("retina".data, []),
   ("rockstar".data, []),
   ("rscript".data, ["rd".data]),
   ("ruby".data, ["ruby".data, "rb".data, "duby".data]),
   ("rust".data, ["rust".data, "rs".data]),
   ("scala".data, ["scala".data]),
   ("sqlite3".data, ["sql".data]),
   ("swift".data, ["swift".data]),
   ("typescript".data, ["typescript".data, "ts".data]),
   ("basic".data, ["basic".data]),
   ("basic.net".data, []),
   ("vlang".data, []),
   ("vyxal".data, []),
   ("yeethon".data, []),
   ("zig".data, ["zig".data])]

/-- `MSG_CHAR_LIM` (src/unnamed/part_000 line 246). -/
def MSG_CHAR_LIM : Int := 500

/-- Number of base-10 digits, via an explicit fuel so the recursion is
structural (`n` itself is always enough fuel). -/
def numDigitsAux : Nat → Nat → Nat
  | 0, _ => 1
  | fuel + 1, n => if n < 10 then 1 else numDigitsAux fuel (n / 10) + 1

/-- `int(math.Log10(float64(n))) + 1` for a positive integer `n`: the
number of base-10 digits of `n`.  (Go computes the floor of log10 through
float64; `cropMessage` only ever applies it to `cropped ≥ 22`, and none of
the inputs in this development sit on an exact power of ten where float64
rounding could differ from the exact floor.) -/
def numDigits (n : Nat) : Nat := numDigitsAux n n

/-- Go string indexing `l[i]`: `none` models the index-out-of-range
panic. -/
def charAt (l : Str) (i : Int) : Option Char :=
  if h : 0 ≤ i ∧ i.toNat < l.length then some (l.get ⟨i.toNat, h.2⟩) else none

/-- The cut index of `cropMessage` after the digit-count correction
(src/unnamed/part_000 lines 253-255): `end := MSG_CHAR_LIM - buffer - 22`,
`cropped := len(toCrop) - end`,
`end -= int(math.Log10(float64(cropped))) + 1`. -/
def cropRawEnd (toCrop : Str) (buffer : Int) : Int :=
  MSG_CHAR_LIM - buffer - 22 -
    numDigits ((toCrop.length : Int) - (MSG_CHAR_LIM - buffer - 22)).toNat

/-- The `else if toCrop[end-1] == '/' -- end--` arm of `cropMessage`
(src/unnamed/part_000 lines 258-260) followed by the final return
(line 261): indexing panics are `none`. -/
def cropElse (toCrop : Str) (buffer : Int) : Option (Str × Int) :=
  match charAt toCrop (cropRawEnd toCrop buffer - 1) with
  | none => none
  | some c1 =>
    if c1 = '/' then
      some (toCrop.take (cropRawEnd toCrop buffer - 1).toNat,
            (toCrop.length : Int) - (cropRawEnd toCrop buffer - 1))
    else
      some (toCrop.take (cropRawEnd toCrop buffer).toNat,
            (toCrop.length : Int) - cropRawEnd toCrop buffer)

/-- `cropMessage(toCrop, buffer)` (src/unnamed/part_000 lines 248-262).
When `len(toCrop) + buffer < MSG_CHAR_LIM` it is the identity with dropped
count 0.  Otherwise it computes the corrected cut index (`cropRawEnd`),
applies the separator-avoidance refinement — Go evaluates
`toCrop[end-2]`, then (only if that is a slash) `toCrop[end-3]`, and in
the `else if` arm `toCrop[end-1]`, each a potential index panic — and
returns `toCrop[:end], len(toCrop) - end` with the final index. -/
def cropMessage (toCrop : Str) (buffer : Int) : Option (Str × Int) :=
  if (toCrop.length : Int) + buffer < MSG_CHAR_LIM then some (toCrop, 0)
  else
    match charAt toCrop (cropRawEnd toCrop buffer - 2) with
    | none => none
    | some c2 =>
      if c2 = '/' then
        match charAt toCrop (cropRawEnd toCrop buffer - 3) with
        | none => none
        | some c3 =>
          if c3 ≠ '/' then
            some (toCrop.take (cropRawEnd toCrop buffer - 2).toNat,
                  (toCrop.length : Int) - (cropRawEnd toCrop buffer - 2))
          else cropElse toCrop buffer
      else cropElse toCrop buffer

/-- The refined cut index that `cropMessage` actually uses, written out as
one expression (for stating its specification). -/
def cropFinalEnd (toCrop : Str) (buffer : Int) : Int :=
  if charAt toCrop (cropRawEnd toCrop buffer - 2) = some '/' ∧
      ¬(charAt toCrop (cropRawEnd toCrop buffer - 3) = some '/') then
    cropRawEnd toCrop buffer - 2
  else if charAt toCrop (cropRawEnd toCrop buffer - 1) = some '/' then
    cropRawEnd toCrop buffer - 1
  else cropRawEnd toCrop buffer

/-- The body-accumulation loop of `messageCreate`
(src/unnamed/part_000 lines 213-215): `code += process[i] + "\n"` over the
middle lines, in order. -/
def buildCode (mid : List Str) : Str :=
  List.foldl (fun acc l => acc ++ l ++ ['\n']) [] mid

/-- The code-extraction block of `messageCreate`
(src/unnamed/part_000 lines 170 and 206-223), given the message content:
`lines := strings.Split(m.Content, "\n")` (no CRLF normalization here);
with more than 3 lines and `lines[1] == "```"` and the last line `"```"`,
the body is accumulated by `buildCode`; every other shape is rejected
(`none`).  The command/argument parsing of lines 172-204 validates the
language only and does not touch the extracted body, so it is not part of
this definition. -/
def legacyExtractCode (content : Str) : Option Str :=
  let lines := splitOn '\n' content
  if 3 < lines.length then
    let process := lines.drop 1
    if (process.headD [] == "```".data) && (process.getLastD [] == "```".data) then
      some (buildCode ((process.drop 1).take (process.length - 2)))
    else none
  else none

/-- The spec's raw tag: whatever follows the opening fence marker on the
first line of the CRLF-normalized message (spec section 4.1). -/
def specRawTag (content : Str) : Str :=
  ((splitOn '\n' (replaceCRLF content)).headD []).drop 3

/-- The spec's body: the verbatim newline join of all lines strictly
between the first and the last line of the CRLF-normalized message (spec
section 4.1). -/
def specBody (content : Str) : Str :=
  joinNL (((splitOn '\n' (replaceCRLF content)).drop 1).dropLast)

/-- The lines strictly between the two fence lines of a legacy
`!run`-command message: everything after the command line and the opening
fence, up to the closing fence. -/
def legacyMid (content : Str) : List Str :=
  ((splitOn '\n' content).drop 2).dropLast

/-! ### Helper lemmas -/

theorem mkFence_length (p : Str) : (mkFence p).length = p.length + 8 := by
  have h1 : ("```\n".data).length = 4 := by decide
  have h2 : ("\n```".data).length = 4 := by decide
  simp only [mkFence, List.length_append, h1, h2]
  omega

theorem splitOutputGo_frag_le :
    ∀ (fuel : Nat) (output : Str) (limit : Int) (l : List Str),
      splitOutputGo fuel output limit = some l →
      ∀ f ∈ l, (f.length : Int) ≤ limit + 8 := by
  intro fuel
  induction fuel with
  | zero =>
    intro output limit l h
    exact absurd h (by simp [splitOutputGo])
  | succ fuel ih =>
    intro output limit l h f hf
    rw [splitOutputGo] at h
    by_cases hlen : (output.length : Int) > limit
    · rw [if_pos hlen] at h
      by_cases hcl : (0 : Int) ≤ limit - 8
      · rw [if_pos hcl] at h
        cases hrec : splitOutputGo fuel (output.drop limit.toNat) limit with
        | none => rw [hrec] at h; exact absurd h (by simp)
        | some rest =>
          rw [hrec] at h
          injection h with h
          subst h
          cases hf with
          | head =>
            rw [mkFence_length, List.length_take]
            omega
          | tail _ hf => exact ih _ _ _ hrec f hf
      · rw [if_neg hcl] at h; exact absurd h (by simp)
    · rw [if_neg hlen] at h
      injection h with h
      subst h
      cases hf with
      | head => rw [mkFence_length]; omega
      | tail _ hf' => cases hf'

theorem splitOutputGo_total :
    ∀ (fuel : Nat) (output : Str) (limit : Int), 8 ≤ limit →
      output.length < fuel →
      ∃ l, splitOutputGo fuel output limit = some l ∧ l ≠ [] := by
  intro fuel
  induction fuel with
  | zero => intro output limit _ h; omega
  | succ fuel ih =>
    intro output limit h8 hfuel
    rw [splitOutputGo]
    by_cases hlen : (output.length : Int) > limit
    · rw [if_pos hlen, if_pos (by omega)]
      obtain ⟨l, hl, _⟩ := ih (output.drop limit.toNat) limit h8
        (by rw [List.length_drop]; omega)
      rw [hl]
      exact ⟨_, rfl, by simp⟩
    · rw [if_neg hlen]
      exact ⟨_, rfl, by simp⟩

/-! ### Claim C1 -/

/-- Claim C1 (code bug): concatenating the payloads of
`splitOutput("abcdefghij", 9)` gives `"aj"`, not the original string: the
loop consumes `limit` characters per iteration but puts only `limit - 8`
of them into the fragment payload, silently dropping 8 characters per
non-final fragment.  The claim (and the spec's lossless-chunking law) says
the concatenation reconstructs the output exactly. -/
theorem splitOutput_drops_characters :
    Option.map payloadConcat (splitOutput "abcdefghij".data 9) = some "aj".data ∧
    ¬("aj".data = "abcdefghij".data) := by decide

/-! ### Claim C2 -/

/-- Claim C2 (code bug): on the two-line message `"hi\n```"` the expression
`c[0][:3]` slices a 2-character first line and panics (slice bounds out of
range), modelled by `none`; the claim says `isCodeMessage` returns `false`
for such input and never throws. -/
theorem isCodeMessage_short_first_line_panics :
    isCodeMessage "hi\n```".data = none ∧
    ¬(isCodeMessage "hi\n```".data = some false) := by decide

/-! ### Claim C3 -/

/-- Claim C3 (code bug): on 1200 `'A'`s with limit 500 the fragments'
payload lengths are 492, 492 and 200 — not the 492, 492, 216 required by
the claim's concrete scenario: after filling a 492-character payload the
loop advances by 500, so 8 characters vanish per non-final fragment and
the final payload is 16 characters short. -/
theorem splitOutput_chunk_1200_payloads :
    Option.map (fun l => l.map fun f => (stripFence f).length)
      (splitOutput (List.replicate 1200 'A') 500) = some [492, 492, 200] ∧
    ¬([492, 492, 200] = [492, 492, 216]) := by decide

/-! ### Claim C5 -/

/-- Claim C5, counterexample: on 10 characters with limit 10 the single
fragment has total length 18, exceeding the limit — the loop only runs
while `len(output) > limit`, so the final fragment's payload may be as
long as `limit` and the decorated fragment as long as `limit + 8`. -/
theorem splitOutput_fragment_over_limit :
    Option.map (fun l => l.map List.length) (splitOutput (List.replicate 10 'A') 10)
      = some [18] ∧
    ¬((18 : Int) ≤ 10) := by decide

/-- Claim C5, amended: every fragment returned by `splitOutput` has total
length at most `limit + 8` (the non-final ones have length exactly
`limit`; the final one is the only fragment whose decorated length can
exceed `limit`, by at most 8). -/
theorem splitOutput_fragment_length_bound (output : Str) (limit : Int)
    (l : List Str) (hl : splitOutput output limit = some l)
    (f : Str) (hf : f ∈ l) : (f.length : Int) ≤ limit + 8 :=
  splitOutputGo_frag_le _ _ _ _ hl f hf

/-- Witness for `splitOutput_fragment_length_bound` at output `"AB"`,
limit 20. -/
theorem splitOutput_fragment_length_bound_witness :
    splitOutput "AB".data 20 = some ["```\nAB\n```".data] ∧
    (("```\nAB\n```".data).length : Int) ≤ 20 + 8 :=
  ⟨by decide,
   splitOutput_fragment_length_bound "AB".data 20 ["```\nAB\n```".data]
     (by decide) "```\nAB\n```".data (by decide)⟩

/-! ### Claim C10 -/

/-- Claim C10, counterexample: at limit 0 (the claim quantifies over every
limit) the loop is entered with `codeLimit = -8` and the slice
`output[:codeLimit]` panics, so no fragment list is returned at all. -/
theorem splitOutput_small_limit_panics :
    splitOutput "A".data 0 = none := by decide

/-- Claim C10, amended: for every limit of at least the 8-character
overhead, `splitOutput` returns a non-empty fragment list, and on the
empty output it returns exactly one fragment consisting solely of the
8 characters of fence decoration. -/
theorem splitOutput_nonempty (output : Str) (limit : Int) (h : 8 ≤ limit) :
    (splitOutput output limit).getD [] ≠ [] ∧
    splitOutput ([] : Str) limit = some ["```\n\n```".data] := by
  constructor
  · obtain ⟨l, hl, hne⟩ :=
      splitOutputGo_total (output.length + 1) output limit h (by omega)
    rw [splitOutput, hl]
    simpa using hne
  · have hm : mkFence ([] : Str) = "```\n\n```".data := by decide
    rw [splitOutput]
    show splitOutputGo 1 [] limit = _
    rw [splitOutputGo, if_neg (by simp; omega), hm]

/-- Witness for `splitOutput_nonempty` at output `"AB"`, limit 500 (the
limit the bot actually passes). -/
theorem splitOutput_nonempty_witness :
    (splitOutput "AB".data 500).getD [] ≠ [] ∧
    splitOutput ([] : Str) 500 = some ["```\n\n```".data] :=
  splitOutput_nonempty "AB".data 500 (by decide)

/-! ### Claim C4 -/

/-- Claim C4, counterexample: the tag `"basic"` case-insensitively equals
the canonical name of the second registry entry, yet resolution returns
`"freebasic"`, because the first entry's alias `"basic"` is examined
before any later entry's canonical name — canonical-name matches do NOT
take precedence over alias matches across entries.  (The real registry in
src/unnamed/part_000 contains exactly this collision: `freebasic` has
alias `"basic"` and `basic` is a canonical name; since the registry is a
Go map, an iteration order placing `freebasic` first is possible.) -/
theorem lookupEntry_alias_shadows_canonical :
    lookupEntry "basic".data
        [("freebasic".data, ["basic".data]), ("basic".data, ["basic".data])]
      = some "freebasic".data ∧
    ¬(some "freebasic".data = some "basic".data) := by decide

/-- Claim C4, amended: resolution scans the registry in order and returns
the canonical name of the first entry that matches the tag
case-insensitively, either by its canonical name or by one of its
aliases; the canonical name takes precedence over aliases only within a
single entry, and an earlier entry's alias match wins over a later
entry's canonical-name match. -/
theorem lookupEntry_eq_specResolve (test : Str) :
    ∀ registry, lookupEntry test registry = specResolve test registry := by
  intro registry
  induction registry with
  | nil => rfl
  | cons e rest ih =>
    obtain ⟨name, aliases⟩ := e
    by_cases h1 : eqFold test name = true
    · simp [lookupEntry, specResolve, entryMatches, h1]
    · by_cases h2 : (aliases.any fun k => eqFold k test) = true
      · simp [lookupEntry, specResolve, entryMatches, h1, h2]
      · have hp : entryMatches test (name, aliases) = false := by
          simp [entryMatches, h1, h2]
        simp only [lookupEntry, specResolve] at ih ⊢
        rw [if_neg (by simp [h1]), if_neg (by simp [h2]),
          List.find?_cons_of_neg _ (by simp [hp])]
        exact ih

/-! ### Claim C8 -/

/-- Claim C8, counterexample: the `/run` command's explicit language
option is checked with `stringInSlice`, whose comparison `i == s` is
case-sensitive — `"PyThOn"` is rejected while `"python"` is accepted, so
the option path is NOT case-insensitive. -/
theorem stringInSlice_case_sensitive :
    stringInSlice "PyThOn".data allowedLanguages = false ∧
    stringInSlice "python".data allowedLanguages = true := by decide

/-- Claim C8, amended: resolution of the fence tag is case-insensitive —
tags that agree after lower-casing resolve identically, and `"PyThOn"`
resolves to canonical `"python"` in the registry — but a language supplied
explicitly as the `/run` command's option is compared case-sensitively
against the canonical list, so `"PyThOn"` is rejected there. -/
theorem resolution_case_fold (registry : List (Str × List Str)) (t1 t2 : Str) :
    (t1.map Char.toLower = t2.map Char.toLower →
      lookupEntry t1 registry = lookupEntry t2 registry) ∧
    lookupEntry "PyThOn".data languages = some "python".data ∧
    stringInSlice "PyThOn".data allowedLanguages = false := by
  refine ⟨?_, by decide, by decide⟩
  intro h
  induction registry with
  | nil => rfl
  | cons e rest ih =>
    obtain ⟨name, aliases⟩ := e
    have hf : eqFold t1 name = eqFold t2 name := by
      unfold eqFold; rw [h]
    have hg : ∀ x : Str, eqFold x t1 = eqFold x t2 := by
      intro x; unfold eqFold; rw [h]
    simp only [lookupEntry, hf, hg, ih]

/-- Witness for `resolution_case_fold`: the tags `"PY"` and `"py"` differ
only in case and resolve to the same canonical name. -/
theorem resolution_case_fold_witness :
    lookupEntry "PY".data languages = lookupEntry "py".data languages ∧
    lookupEntry "PyThOn".data languages = some "python".data ∧
    stringInSlice "PyThOn".data allowedLanguages = false :=
  ⟨(resolution_case_fold languages "PY".data "py".data).1 (by decide),
   (resolution_case_fold languages "PY".data "py".data).2.1,
   (resolution_case_fold languages "PY".data "py".data).2.2⟩

/-! ### Crop helper lemmas -/

theorem numDigitsAux_pos : ∀ (fuel n : Nat), 1 ≤ numDigitsAux fuel n := by
  intro fuel n
  cases fuel with
  | zero => simp [numDigitsAux]
  | succ fuel => rw [numDigitsAux]; split <;> omega

theorem numDigits_pos (n : Nat) : 1 ≤ numDigits n := numDigitsAux_pos n n

theorem charAt_isSome (l : Str) (i : Int) (h0 : 0 ≤ i)
    (h1 : i < (l.length : Int)) : ∃ c, charAt l i = some c := by
  have ht : i.toNat < l.length := by omega
  exact ⟨_, by rw [charAt, dif_pos ⟨h0, ht⟩]⟩

theorem cropRawEnd_le (toCrop : Str) (buffer : Int)
    (h : MSG_CHAR_LIM ≤ (toCrop.length : Int) + buffer) :
    cropRawEnd toCrop buffer ≤ (toCrop.length : Int) - 23 := by
  have hd := numDigits_pos
    ((toCrop.length : Int) - (MSG_CHAR_LIM - buffer - 22)).toNat
  unfold cropRawEnd MSG_CHAR_LIM at *
  omega

theorem cropFinalEnd_between (toCrop : Str) (buffer : Int) :
    cropRawEnd toCrop buffer - 2 ≤ cropFinalEnd toCrop buffer ∧
    cropFinalEnd toCrop buffer ≤ cropRawEnd toCrop buffer := by
  unfold cropFinalEnd
  split
  · omega
  · split <;> omega

/-- What `cropMessage` returns whenever the crop branch is taken and the
refined cut index keeps every inspected position in bounds: the prefix up
to `cropFinalEnd` together with the dropped-character count computed from
that final index. -/
theorem cropMessage_eq_final (toCrop : Str) (buffer : Int)
    (h1 : MSG_CHAR_LIM ≤ (toCrop.length : Int) + buffer)
    (h2 : 3 ≤ cropRawEnd toCrop buffer) :
    cropMessage toCrop buffer =
      some (toCrop.take (cropFinalEnd toCrop buffer).toNat,
            (toCrop.length : Int) - cropFinalEnd toCrop buffer) := by
  have hlt := cropRawEnd_le toCrop buffer h1
  obtain ⟨c2, hc2⟩ :=
    charAt_isSome toCrop (cropRawEnd toCrop buffer - 2) (by omega) (by omega)
  obtain ⟨c3, hc3⟩ :=
    charAt_isSome toCrop (cropRawEnd toCrop buffer - 3) (by omega) (by omega)
  obtain ⟨c1, hc1⟩ :=
    charAt_isSome toCrop (cropRawEnd toCrop buffer - 1) (by omega) (by omega)
  have hnb : ¬((toCrop.length : Int) + buffer < MSG_CHAR_LIM) := by omega
  rw [cropMessage, if_neg hnb, hc2]
  dsimp only
  by_cases h2s : c2 = '/'
  · rw [if_pos h2s, hc3]
    dsimp only
    by_cases h3s : c3 = '/'
    · rw [if_neg (by simp [h3s])]
      rw [cropElse, hc1]
      dsimp only
      by_cases h1s : c1 = '/'
      · rw [if_pos h1s]
        have hfe : cropFinalEnd toCrop buffer = cropRawEnd toCrop buffer - 1 := by
          rw [cropFinalEnd, if_neg (by simp [hc2, hc3, h2s, h3s]),
            if_pos (by rw [hc1, h1s])]
        rw [hfe]
      · rw [if_neg h1s]
        have hfe : cropFinalEnd toCrop buffer = cropRawEnd toCrop buffer := by
          rw [cropFinalEnd, if_neg (by simp [hc2, hc3, h2s, h3s]),
            if_neg (by simp [hc1, h1s])]
        rw [hfe]
    · rw [if_pos (by simp [h3s])]
      have hfe : cropFinalEnd toCrop buffer = cropRawEnd toCrop buffer - 2 := by
        rw [cropFinalEnd, if_pos ⟨by rw [hc2, h2s], by simp [hc3, h3s]⟩]
      rw [hfe]
  · rw [if_neg h2s]
    rw [cropElse, hc1]
    dsimp only
    by_cases h1s : c1 = '/'
    · rw [if_pos h1s]
      have hfe : cropFinalEnd toCrop buffer = cropRawEnd toCrop buffer - 1 := by
        rw [cropFinalEnd, if_neg (by simp [hc2, h2s]), if_pos (by rw [hc1, h1s])]
      rw [hfe]
    · rw [if_neg h1s]
      have hfe : cropFinalEnd toCrop buffer = cropRawEnd toCrop buffer := by
        rw [cropFinalEnd, if_neg (by simp [hc2, h2s]), if_neg (by simp [hc1, h1s])]
      rw [hfe]

/-! ### Claim C6 -/

/-- Claim C6, counterexample: with `toCrop = "AAAA"` and `buffer = 496` the
crop branch is taken (`4 + 496 ≥ 500`) but the refined cut index is
negative, so `toCrop[end-2]` panics (index out of range) — `cropMessage`
does not return a shorter prefix with a positive dropped count there, as
the claim requires for every such input. -/
theorem cropMessage_panics_on_large_buffer :
    cropMessage (List.replicate 4 'A') 496 = none ∧
    MSG_CHAR_LIM ≤ ((List.replicate 4 'A').length : Int) + 496 := by decide

/-- Claim C6, amended: `cropMessage` returns the input unchanged with
dropped count 0 whenever `len(toCrop) + buffer < MSG_CHAR_LIM`; whenever
`len(toCrop) + buffer ≥ MSG_CHAR_LIM` AND the corrected cut index
`cropRawEnd` is at least 3 (so that the separator-avoidance indexing stays
in bounds), it returns a strictly shorter prefix of `toCrop` and a
positive dropped count equal to `len(toCrop)` minus the final
post-refinement cut index, i.e. equal to `len(toCrop) - len(displayed)`. -/
theorem cropMessage_len_spec (toCrop : Str) (buffer : Int) :
    ((toCrop.length : Int) + buffer < MSG_CHAR_LIM →
      cropMessage toCrop buffer = some (toCrop, 0)) ∧
    (MSG_CHAR_LIM ≤ (toCrop.length : Int) + buffer →
      3 ≤ cropRawEnd toCrop buffer →
      cropMessage toCrop buffer =
        some (toCrop.take (cropFinalEnd toCrop buffer).toNat,
              (toCrop.length : Int) - cropFinalEnd toCrop buffer) ∧
      (toCrop.take (cropFinalEnd toCrop buffer).toNat).length < toCrop.length ∧
      0 < (toCrop.length : Int) - cropFinalEnd toCrop buffer ∧
      (toCrop.length : Int) - cropFinalEnd toCrop buffer =
        (toCrop.length : Int) -
          ((toCrop.take (cropFinalEnd toCrop buffer).toNat).length : Int)) := by
  constructor
  · intro h
    rw [cropMessage, if_pos h]
  · intro h1 h2
    have hlt := cropRawEnd_le toCrop buffer h1
    have hb := cropFinalEnd_between toCrop buffer
    refine ⟨cropMessage_eq_final toCrop buffer h1 h2, ?_, ?_, ?_⟩
    · rw [List.length_take]; omega
    · omega
    · rw [List.length_take]
      have : (min (cropFinalEnd toCrop buffer).toNat toCrop.length : Int)
          = cropFinalEnd toCrop buffer := by omega
      omega

/-- Witness for `cropMessage_len_spec`: the no-op part at `"AB"` with
buffer 3, and the crop part at 30 `'A'`s with buffer 470. -/
theorem cropMessage_len_spec_witness :
    cropMessage "AB".data 3 = some ("AB".data, 0) ∧
    (cropMessage (List.replicate 30 'A') 470 =
        some ((List.replicate 30 'A').take
            (cropFinalEnd (List.replicate 30 'A') 470).toNat,
          (((List.replicate 30 'A').length : Int)
            - cropFinalEnd (List.replicate 30 'A') 470)) ∧
      ((List.replicate 30 'A').take
          (cropFinalEnd (List.replicate 30 'A') 470).toNat).length
        < (List.replicate 30 'A').length ∧
      0 < ((List.replicate 30 'A').length : Int)
            - cropFinalEnd (List.replicate 30 'A') 470 ∧
      ((List.replicate 30 'A').length : Int)
          - cropFinalEnd (List.replicate 30 'A') 470 =
        ((List.replicate 30 'A').length : Int) -
          (((List.replicate 30 'A').take
              (cropFinalEnd (List.replicate 30 'A') 470).toNat).length : Int)) :=
  ⟨(cropMessage_len_spec "AB".data 3).1 (by decide),
   (cropMessage_len_spec (List.replicate 30 'A') 470).2 (by decide) (by decide)⟩

/-! ### Claim C7 -/

/-- Claim C7, counterexample: in `"AAAAB/AAA…"` (30 characters, buffer
470) the two characters immediately preceding the cut point (index 6) are
`'B'` then `'/'` — a non-slash followed by a slash — so the claim requires
a shift of two (prefix `"AAAA"`, 26 dropped); the code instead tests
`toCrop[end-2]` (which is `'B'`, not a slash), falls to the `else if`, and
shifts by one (prefix `"AAAAB"`, 25 dropped): the code's first pattern
lives at positions `end-3`/`end-2`, one position earlier than the claim
states. -/
theorem cropMessage_refine_position_mismatch :
    cropMessage ("AAAAB/".data ++ List.replicate 24 'A') 470
      = some ("AAAAB".data, 25) ∧
    ¬(cropMessage ("AAAAB/".data ++ List.replicate 24 'A') 470
      = some ("AAAA".data, 26)) := by decide

/-- Claim C7, amended: after the corrected cut index `end` is computed, if
the character two positions before the cut (`toCrop[end-2]`) is a slash
and the character three positions before (`toCrop[end-3]`) is not, the
cut shifts back by two; otherwise, if the character immediately preceding
the cut (`toCrop[end-1]`) is a slash, the cut shifts back by one;
otherwise it is unchanged. -/
theorem cropMessage_refine_spec (toCrop : Str) (buffer : Int)
    (h1 : MSG_CHAR_LIM ≤ (toCrop.length : Int) + buffer)
    (h2 : 3 ≤ cropRawEnd toCrop buffer) :
    (charAt toCrop (cropRawEnd toCrop buffer - 2) = some '/' ∧
        ¬(charAt toCrop (cropRawEnd toCrop buffer - 3) = some '/') →
      cropMessage toCrop buffer =
        some (toCrop.take (cropRawEnd toCrop buffer - 2).toNat,
              (toCrop.length : Int) - (cropRawEnd toCrop buffer - 2))) ∧
    (¬(charAt toCrop (cropRawEnd toCrop buffer - 2) = some '/' ∧
        ¬(charAt toCrop (cropRawEnd toCrop buffer - 3) = some '/')) →
      charAt toCrop (cropRawEnd toCrop buffer - 1) = some '/' →
      cropMessage toCrop buffer =
        some (toCrop.take (cropRawEnd toCrop buffer - 1).toNat,
              (toCrop.length : Int) - (cropRawEnd toCrop buffer - 1))) ∧
    (¬(charAt toCrop (cropRawEnd toCrop buffer - 2) = some '/' ∧
        ¬(charAt toCrop (cropRawEnd toCrop buffer - 3) = some '/')) →
      ¬(charAt toCrop (cropRawEnd toCrop buffer - 1) = some '/') →
      cropMessage toCrop buffer =
        some (toCrop.take (cropRawEnd toCrop buffer).toNat,
              (toCrop.length : Int) - cropRawEnd toCrop buffer)) := by
  refine ⟨?_, ?_, ?_⟩
  · intro hA
    have hfe : cropFinalEnd toCrop buffer = cropRawEnd toCrop buffer - 2 := by
      rw [cropFinalEnd, if_pos hA]
    rw [cropMessage_eq_final toCrop buffer h1 h2, hfe]
  · intro hA hB
    have hfe : cropFinalEnd toCrop buffer = cropRawEnd toCrop buffer - 1 := by
      rw [cropFinalEnd, if_neg hA, if_pos hB]
    rw [cropMessage_eq_final toCrop buffer h1 h2, hfe]
  · intro hA hB
    have hfe : cropFinalEnd toCrop buffer = cropRawEnd toCrop buffer := by
      rw [cropFinalEnd, if_neg hA, if_neg hB]
    rw [cropMessage_eq_final toCrop buffer h1 h2, hfe]

/-- Witness for `cropMessage_refine_spec`: in `"AAAA/AAA…"` (30
characters, buffer 470) the slash sits two positions before the cut index
6 with a non-slash before it, and the cut shifts back by two. -/
theorem cropMessage_refine_spec_witness :
    cropMessage ("AAAA/".data ++ List.replicate 25 'A') 470
      = some (("AAAA/".data ++ List.replicate 25 'A').take
            (cropRawEnd ("AAAA/".data ++ List.replicate 25 'A') 470 - 2).toNat,
          ((("AAAA/".data ++ List.replicate 25 'A').length : Int)
            - (cropRawEnd ("AAAA/".data ++ List.replicate 25 'A') 470 - 2))) :=
  (cropMessage_refine_spec ("AAAA/".data ++ List.replicate 25 'A') 470
      (by decide) (by decide)).1 (by decide)

/-! ### Extraction helper lemmas -/

theorem splitOn_ne_nil (sep : Char) : ∀ s : Str, splitOn sep s ≠ [] := by
  intro s
  induction s with
  | nil => simp [splitOn]
  | cons c rest ih =>
    rw [splitOn]
    split
    · simp
    · cases h : splitOn sep rest <;> simp [h]

theorem sliceMid_take_eq_dropLast (c : List Str) :
    (c.drop 1).take (c.length - 2) = (c.drop 1).dropLast := by
  rw [List.dropLast_eq_take, List.length_drop]
  congr 1

theorem foldl_buildCode (mid : List Str) :
    ∀ acc : Str, List.foldl (fun acc l => acc ++ l ++ ['\n']) acc mid
      = acc ++ buildCode mid := by
  induction mid with
  | nil => intro acc; simp [buildCode]
  | cons x rest ih =>
    intro acc
    rw [buildCode]
    simp only [List.foldl_cons]
    rw [ih, ih]
    simp [List.append_assoc]

theorem buildCode_eq_joinNL : ∀ mid : List Str, mid ≠ [] →
    buildCode mid = joinNL mid ++ ['\n'] := by
  intro mid
  induction mid with
  | nil => intro h; exact absurd rfl h
  | cons x rest ih =>
    intro _
    cases rest with
    | nil => simp [buildCode, joinNL]
    | cons y rest2 =>
      have hne : (y :: rest2 : List Str) ≠ [] := by simp
      rw [show buildCode (x :: y :: rest2)
          = (([] : Str) ++ x ++ ['\n']) ++ buildCode (y :: rest2) from by
        rw [buildCode, List.foldl_cons, foldl_buildCode]]
      rw [ih hne]
      show (([] : Str) ++ x ++ ['\n']) ++ (joinNL (y :: rest2) ++ ['\n'])
        = (x ++ '\n' :: joinNL (y :: rest2)) ++ ['\n']
      simp [List.append_assoc]

/-! ### Claim C9 -/

/-- Claim C9, counterexample: the legacy `messageCreate` extraction
appends a newline after every middle line, so the message
`"!run python\n```\nprint(1)\n```"` yields the body `"print(1)\n"` — not
the verbatim join `"print(1)"` of the lines strictly between the fences
that the claim requires. -/
theorem legacy_extraction_trailing_newline :
    legacyExtractCode "!run python\n```\nprint(1)\n```".data
      = some "print(1)\n".data ∧
    ¬("print(1)\n".data = "print(1)".data) := by decide

/-- Claim C9, amended: for every well-formed fenced message the
interaction-command extraction (`getLanguageAndCodeFromMessage`) resolves
exactly the raw tag — everything after the three-backtick marker on the
first line, possibly empty — and returns as body the verbatim
newline-preserving join of all lines strictly between the first and last
line (empty for zero such lines); the legacy `!run`-command extraction
(`messageCreate`) instead returns each middle line followed by a newline,
i.e. the verbatim join plus one trailing newline. -/
theorem extraction_spec (registry : List (Str × List Str)) (content : Str) :
    (isCodeMessage content = some true →
      getLanguageAndCodeFromMessage registry content =
        some ((lookupEntry (specRawTag content) registry).getD [],
              specBody content)) ∧
    (∀ code, legacyExtractCode content = some code →
      code = joinNL (legacyMid content) ++ ['\n']) := by
  constructor
  · intro hcode
    simp only [isCodeMessage] at hcode
    split_ifs at hcode with hlt hhd
    case pos => simp at hcode
    rcases hc : splitOn '\n' (replaceCRLF content) with _ | ⟨c0, rest⟩
    · exact absurd hc (splitOn_ne_nil _ _)
    rw [hc] at hlt hhd
    have htag : specRawTag content = c0.drop 3 := by
      rw [specRawTag, hc]; simp
    have hbody : specBody content = joinNL ((c0 :: rest).drop 1).dropLast := by
      rw [specBody, hc]
    have hft : firstTag (c0 :: rest) = some (c0.drop 3) := by
      rw [firstTag, if_pos (by simp at hhd; omega)]
    have hsm : sliceMid (c0 :: rest) = some ((c0 :: rest).drop 1).dropLast := by
      rw [sliceMid, if_pos (by simp at hlt ⊢; omega), sliceMid_take_eq_dropLast]
    cases registry with
    | nil =>
      simp only [getLanguageAndCodeFromMessage]
      rw [hc, hsm, htag, hbody]
      simp [lookupEntry]
    | cons e rrest =>
      simp only [getLanguageAndCodeFromMessage]
      rw [hc, hft, hsm, htag, hbody]
      cases hlook : lookupEntry (c0.drop 3) (e :: rrest) with
      | some name => simp [hlook]
      | none => simp [hlook]
  · intro code hcode
    simp only [legacyExtractCode] at hcode
    split_ifs at hcode with h3 hfence
    injection hcode with hcode
    subst hcode
    have hmid : (((splitOn '\n' content).drop 1).drop 1).take
          (((splitOn '\n' content).drop 1).length - 2) = legacyMid content := by
      rw [List.drop_drop, List.length_drop, legacyMid,
        List.dropLast_eq_take, List.length_drop]
      congr 1
    rw [hmid]
    apply buildCode_eq_joinNL
    have hlen : (legacyMid content).length = (splitOn '\n' content).length - 3 := by
      rw [legacyMid, List.dropLast_eq_take, List.length_take,
        List.length_drop]
      omega
    intro hnil
    rw [hnil] at hlen
    simp at hlen
    omega

/-- Witness for `extraction_spec`: the fenced message
`"```py\nprint(1)\n```"` against the real registry, and the legacy message
`"!run python\n```\nprint(1)\n```"`. -/
theorem extraction_spec_witness :
    getLanguageAndCodeFromMessage languages "```py\nprint(1)\n```".data =
      some ((lookupEntry (specRawTag "```py\nprint(1)\n```".data) languages).getD [],
            specBody "```py\nprint(1)\n```".data) ∧
    "print(1)\n".data
      = joinNL (legacyMid "!run python\n```\nprint(1)\n```".data) ++ ['\n'] :=
  ⟨(extraction_spec languages "```py\nprint(1)\n```".data).1 (by decide),
   (extraction_spec [] "!run python\n```\nprint(1)\n```".data).2
     "print(1)\n".data (by decide)⟩
